import Mathlib

/-!
Verification of the Onyx query-compilation and field-resolution subsystem.

The definitions below are a shallow embedding of the request-handling code of
the repository (primarily `onyx/data/views.py`, `metadb/data/views.py`,
`metadb/utils/fieldserializers.py` and `onyx/data/models/models.py`).
Components whose implementation files are not part of the provided sources
(the atom parser of `onyx/data/query.py` and the field resolver of
`onyx/data/fields.py`) are modelled from the specification and are marked as
such in their doc comments.
-/

namespace Onyx

/-! ## JSON-like query values

A request body (POST-style) or a normalized set of query parameters
(GET-style) is a JSON-like tree: strings at the leaves, objects (ordered
key/value lists) and arrays as the branching nodes.  This mirrors the
`RequestBody` root model of `onyx/data/views.py`. -/

inductive QVal where
  | str : String → QVal
  | obj : List (String × QVal) → QVal
  | arr : List QVal → QVal

/-- Abstract syntax tree of a boolean filter expression: leaf atoms
(key/value, where the key may carry a `__lookup` suffix) and AND/OR/XOR/NOT
groups.  AND/OR/XOR carry a list of one or more children. -/
inductive QExpr where
  | atom : String → QVal → QExpr
  | and : List QExpr → QExpr
  | or : List QExpr → QExpr
  | xor : List QExpr → QExpr
  | not : QExpr → QExpr

/-- The reserved boolean-connective keys of the query language. -/
def connectiveKeys : List String := ["&", "|", "^", "~"]

mutual

/-- Modelled from the spec: the recursive atom parser of `onyx/data/query.py`
(not among the provided sources).  Boolean connectives are the reserved keys
listed in `connectiveKeys`, each mapping to a list of sub-expressions
(`~` to exactly one); leaf entries are single-key mappings of a field key to
a value.  Parsing is purely structural and validates no field names. -/
def parseExpr : QVal → Except String QExpr
  | QVal.str _ => Except.error "Expected an object, not a value."
  | QVal.arr _ => Except.error "Expected an object, not a list."
  | QVal.obj [] => Except.error "Expected exactly one key-value pair."
  | QVal.obj (_ :: _ :: _) => Except.error "Expected exactly one key-value pair."
  | QVal.obj [(k, v)] =>
    if k = "&" then parseGroup QExpr.and v
    else if k = "|" then parseGroup QExpr.or v
    else if k = "^" then parseGroup QExpr.xor v
    else if k = "~" then
      match v with
      | QVal.arr [x] => (parseExpr x).map QExpr.not
      | QVal.arr _ => Except.error "The NOT operator accepts exactly one child."
      | x => (parseExpr x).map QExpr.not
    else Except.ok (QExpr.atom k v)

def parseGroup (mk : List QExpr → QExpr) : QVal → Except String QExpr
  | QVal.arr [] => Except.error "A group must have at least one child."
  | QVal.arr (x :: xs) => (parseMany (x :: xs)).map mk
  | _ => Except.error "A group operator expects a list of children."

def parseMany : List QVal → Except String (List QExpr)
  | [] => Except.ok []
  | x :: xs => do
    let e ← parseExpr x
    let es ← parseMany xs
    Except.ok (e :: es)

end

/-- A leaf atom as produced by `make_atoms`: the raw field key (possibly with
a `__lookup` suffix) together with its raw, untyped value. -/
structure QueryAtom where
  key : String
  value : QVal

mutual

/-- Collect the leaf atoms of an expression tree, left to right. -/
def atomsOf : QExpr → List QueryAtom
  | QExpr.atom k v => [⟨k, v⟩]
  | QExpr.and cs => atomsMany cs
  | QExpr.or cs => atomsMany cs
  | QExpr.xor cs => atomsMany cs
  | QExpr.not c => atomsOf c

def atomsMany : List QExpr → List QueryAtom
  | [] => []
  | c :: cs => atomsOf c ++ atomsMany cs

end

/-- Modelled from the spec: `make_atoms` of `onyx/data/query.py` (not among
the provided sources) turns the value of each key-value pair of the query
into a `QueryAtom`, returning the list of atoms of the whole tree. -/
def make_atoms (q : QVal) : Except String (List QueryAtom) :=
  (parseExpr q).map atomsOf

/-! ## Request parameters and the GET-style normalization

From `ProjectAPIView.initial` and `ProjectRecordsViewSet.list` of
`onyx/data/views.py`. -/

/-- The reserved query parameters that are never treated as filter conditions
(`onyx/data/views.py`, line 79). -/
def reservedParams : List String := ["cursor", "include", "exclude", "scope", "summarise"]

/-- Lines 75-80 of `onyx/data/views.py`: the flat key/value query parameters of a
request, with the reserved parameters removed.  Each remaining parameter will
become one single-field condition. -/
def buildQueryParams (rawParams : List (String × String)) : List (String × String) :=
  rawParams.filter fun p => decide (p.1 ∉ reservedParams)

/-- The nested JSON expression equivalent to a flat list of key/value
parameters: a single top-level AND whose children are single-field
atoms. -/
def nestedOfParams (params : List (String × String)) : QVal :=
  QVal.obj [("&", QVal.arr (params.map fun p => QVal.obj [(p.1, QVal.str p.2)]))]

/-- Lines 399-404 of `onyx/data/views.py` (GET branch of `list`): if any flat
parameters were provided they are wrapped as an implicit top-level AND;
otherwise there is no query. -/
def getQuery (params : List (String × String)) : Option QVal :=
  if params.isEmpty then none else some (nestedOfParams params)

/-- Lines 399-414 of `onyx/data/views.py` together with the Python truthiness
tests on lines 411 and 474: the query value used for filtering, `none` when no
conditions were supplied (no parameters for GET, an empty body for POST). -/
def requestQuery (isGet : Bool) (rawParams : List (String × String))
    (body : List (String × QVal)) : Option QVal :=
  if isGet then getQuery (buildQueryParams rawParams)
  else if body.isEmpty then none else some (QVal.obj body)

/-! ## Records, filtering and deduplication

The store executes the compiled predicate (spec section 6); a record with
nested one-to-many sub-records can match a nested condition through several
sub-records at once, in which case the raw filtered rows repeat the record
once per match.  `ProjectRecordsViewSet.list` (lines 474-483) therefore calls
`distinct()` on the filtered queryset before pagination. -/

/-- A nested one-to-many sub-record: a flat mapping of field names to
values. -/
structure SubRecord where
  fields : List (String × String)
  deriving DecidableEq

/-- A top-level project record: its own flat fields plus its nested
sub-records. -/
structure DataRecord where
  fields : List (String × String)
  subs : List SubRecord
  deriving DecidableEq

/-- Join semantics of filtering on a one-to-many nested relation: every
record is emitted once per nested sub-record matching the predicate, as in
the SQL join produced by the store. -/
def filterJoin (pred : DataRecord → SubRecord → Bool) (qs : List DataRecord) :
    List DataRecord :=
  qs.flatMap fun r => (r.subs.filter (pred r)).map fun _ => r

/-- Lines 474-483 of `onyx/data/views.py`: if a query was provided, the
queryset is filtered with the compiled predicate and deduplicated with
`distinct()`; otherwise it is left untouched.  The store's filtering is a
parameter (`filterFn`), as the compiled predicate is executed by the external
store. -/
def listFilterStep (filterFn : QVal → List DataRecord → List DataRecord)
    (query : Option QVal) (qs : List DataRecord) : List DataRecord :=
  match query with
  | none => qs
  | some q => (filterFn q qs).dedup

/-- Cursor pagination returns the records of one page, a prefix-window of the
ordered result set (lines 516-521 of `onyx/data/views.py`); modelled as a
window of the result list. -/
def paginate (start size : Nat) (l : List α) : List α :=
  (l.drop start).take size

/-! ### Parser lemmas for the GET/POST normalization -/

/-- A single-key object whose key is not a reserved connective parses as a
leaf atom. -/
theorem parseExpr_leaf (k : String) (v : QVal) (h : k ∉ connectiveKeys) :
    parseExpr (QVal.obj [(k, v)]) = Except.ok (QExpr.atom k v) := by
  simp [connectiveKeys] at h
  obtain ⟨h1, h2, h3, h4⟩ := h
  rw [parseExpr.eq_def]
  simp [h1, h2, h3, h4]

/-- A list of single-key objects with non-connective keys parses as the list
of the corresponding leaf atoms. -/
theorem parseMany_leaves (params : List (String × String))
    (h : ∀ p ∈ params, p.1 ∉ connectiveKeys) :
    parseMany (params.map fun p => QVal.obj [(p.1, QVal.str p.2)]) =
      Except.ok (params.map fun p => QExpr.atom p.1 (QVal.str p.2)) := by
  induction params with
  | nil => rw [List.map_nil, parseMany, List.map_nil]
  | cons p ps ih =>
    have hp : p.1 ∉ connectiveKeys := h p (List.mem_cons_self p ps)
    have hps : ∀ q ∈ ps, q.1 ∉ connectiveKeys := fun q hq => h q (List.mem_cons_of_mem p hq)
    simp only [List.map_cons]
    rw [parseMany, parseExpr_leaf p.1 (QVal.str p.2) hp, ih hps]
    rfl

/-- Unfolding lemma: the atoms of an AND group are the atoms of its
children. -/
theorem atomsOf_and (cs : List QExpr) : atomsOf (QExpr.and cs) = atomsMany cs := by
  rw [atomsOf.eq_def]

/-- Mapping over a successful result. -/
theorem except_map_ok (f : α → β) (a : α) :
    Except.map f (Except.ok a : Except String α) = Except.ok (f a) := rfl

/-- The leaf atoms of an AND of leaf atoms are exactly those atoms. -/
theorem atomsMany_leaves (params : List (String × String)) :
    atomsMany (params.map fun p => QExpr.atom p.1 (QVal.str p.2)) =
      params.map fun p => QueryAtom.mk p.1 (QVal.str p.2) := by
  induction params with
  | nil => simp [atomsMany]
  | cons p ps ih => simp [atomsMany, atomsOf, ih]

/-- Claim C1: for every non-empty set of GET-style flat key/value query
parameters (the reserved parameters excluded by `buildQueryParams`), the
filter/list operation wraps the parameters as a single implicit top-level AND
of single-field atoms before atom construction; the resulting AST is an AND
of exactly those atoms, identical in shape to the one produced from the
equivalent nested JSON (POST-style) expression, and the two request forms
produce the same filtered result set. -/
theorem get_params_implicit_and_equivalence
    (rawParams : List (String × String)) (body : List (String × QVal))
    (filterFn : QVal → List DataRecord → List DataRecord) (qs : List DataRecord)
    (hne : buildQueryParams rawParams ≠ [])
    (hkeys : ∀ p ∈ buildQueryParams rawParams, p.1 ∉ connectiveKeys) :
    requestQuery true rawParams body =
      some (nestedOfParams (buildQueryParams rawParams)) ∧
    parseExpr (nestedOfParams (buildQueryParams rawParams)) =
      Except.ok (QExpr.and ((buildQueryParams rawParams).map
        fun p => QExpr.atom p.1 (QVal.str p.2))) ∧
    make_atoms (nestedOfParams (buildQueryParams rawParams)) =
      Except.ok ((buildQueryParams rawParams).map
        fun p => QueryAtom.mk p.1 (QVal.str p.2)) ∧
    listFilterStep filterFn (requestQuery true rawParams body) qs =
      listFilterStep filterFn (requestQuery false rawParams
        [("&", QVal.arr ((buildQueryParams rawParams).map
          fun p => QVal.obj [(p.1, QVal.str p.2)]))]) qs := by
  have h1 : requestQuery true rawParams body =
      some (nestedOfParams (buildQueryParams rawParams)) := by
    simp [requestQuery, getQuery, List.isEmpty_iff, hne]
  have h2 : parseExpr (nestedOfParams (buildQueryParams rawParams)) =
      Except.ok (QExpr.and ((buildQueryParams rawParams).map
        fun p => QExpr.atom p.1 (QVal.str p.2))) := by
    cases hps : buildQueryParams rawParams with
    | nil => exact absurd hps hne
    | cons p0 ps =>
      rw [hps] at hkeys
      rw [nestedOfParams, List.map_cons, parseExpr.eq_def]
      simp only [reduceIte]
      rw [parseGroup]
      rw [← List.map_cons (fun p => QVal.obj [(p.1, QVal.str p.2)]) p0 ps]
      rw [parseMany_leaves (p0 :: ps) hkeys]
      rfl
  refine ⟨h1, h2, ?_, ?_⟩
  · rw [make_atoms, h2, except_map_ok, atomsOf_and, atomsMany_leaves]
  · rw [h1]
    have h4 : requestQuery false rawParams
        [("&", QVal.arr ((buildQueryParams rawParams).map
          fun p => QVal.obj [(p.1, QVal.str p.2)]))] =
        some (nestedOfParams (buildQueryParams rawParams)) := by
      simp [requestQuery, nestedOfParams]
    rw [h4]

/-- Witness for the C1 theorem at a concrete request: one reserved parameter
and one filter parameter. -/
theorem get_params_implicit_and_equivalence_witness :
    requestQuery true [("include", "x"), ("country", "eng")] [] =
      some (nestedOfParams (buildQueryParams [("include", "x"), ("country", "eng")])) ∧
    parseExpr (nestedOfParams (buildQueryParams [("include", "x"), ("country", "eng")])) =
      Except.ok (QExpr.and ((buildQueryParams [("include", "x"), ("country", "eng")]).map
        fun p => QExpr.atom p.1 (QVal.str p.2))) ∧
    make_atoms (nestedOfParams (buildQueryParams [("include", "x"), ("country", "eng")])) =
      Except.ok ((buildQueryParams [("include", "x"), ("country", "eng")]).map
        fun p => QueryAtom.mk p.1 (QVal.str p.2)) ∧
    listFilterStep (fun _ l => l)
        (requestQuery true [("include", "x"), ("country", "eng")] []) [] =
      listFilterStep (fun _ l => l)
        (requestQuery false [("include", "x"), ("country", "eng")]
          [("&", QVal.arr ((buildQueryParams [("include", "x"), ("country", "eng")]).map
            fun p => QVal.obj [(p.1, QVal.str p.2)]))]) [] :=
  get_params_implicit_and_equivalence [("include", "x"), ("country", "eng")] []
    (fun _ l => l) [] (by decide) (by decide)

/-- Claim C5: a filter/list request that supplies zero filter conditions
(no non-reserved query parameters in the GET form, an empty body in the POST
form) applies no filtering predicate and returns every record of the visible
queryset unchanged. -/
theorem empty_query_returns_all
    (filterFn : QVal → List DataRecord → List DataRecord)
    (rawParams : List (String × String)) (qs : List DataRecord)
    (h : buildQueryParams rawParams = []) :
    listFilterStep filterFn (requestQuery true rawParams []) qs = qs ∧
    listFilterStep filterFn (requestQuery false rawParams []) qs = qs := by
  constructor
  · simp [requestQuery, getQuery, h, listFilterStep]
  · simp [requestQuery, listFilterStep]

/-- Witness for the C5 theorem: a request carrying only the reserved
`include` parameter and one record in the store. -/
theorem empty_query_returns_all_witness :
    listFilterStep (fun _ l => l) (requestQuery true [("include", "x")] [])
        [⟨[("country", "eng")], []⟩] = [⟨[("country", "eng")], []⟩] ∧
    listFilterStep (fun _ l => l) (requestQuery false [("include", "x")] [])
        [⟨[("country", "eng")], []⟩] = [⟨[("country", "eng")], []⟩] :=
  empty_query_returns_all (fun _ l => l) [("include", "x")]
    [⟨[("country", "eng")], []⟩] (by decide)

/-- Claim C6: when the compiled predicate filters through a one-to-many
nested relation, the raw filtered rows repeat a record once per matching
sub-record; since `distinct()` is applied to the filtered result set before
pagination and serialization, a record with one or more matching nested
sub-records appears exactly once in the filtered result set and at most once
on any page. -/
theorem nested_filter_deduplicated
    (sem : QVal → DataRecord → SubRecord → Bool) (q : QVal)
    (qs : List DataRecord) (r : DataRecord) (s : SubRecord)
    (hr : r ∈ qs) (hs : s ∈ r.subs) (hmatch : sem q r s = true) :
    (listFilterStep (fun qv => filterJoin (sem qv)) (some q) qs).count r = 1 ∧
    ∀ start size,
      (paginate start size
        (listFilterStep (fun qv => filterJoin (sem qv)) (some q) qs)).count r ≤ 1 := by
  have hmem : r ∈ filterJoin (sem q) qs := by
    rw [filterJoin]
    refine List.mem_flatMap.2 ⟨r, hr, ?_⟩
    refine List.mem_map.2 ⟨s, ?_, rfl⟩
    exact List.mem_filter.2 ⟨hs, hmatch⟩
  have hcount : (listFilterStep (fun qv => filterJoin (sem qv)) (some q) qs).count r = 1 := by
    rw [listFilterStep, List.count_dedup]
    simp [hmem]
  refine ⟨hcount, fun start size => ?_⟩
  have hsub : List.Sublist
      (paginate start size (listFilterStep (fun qv => filterJoin (sem qv)) (some q) qs))
      (listFilterStep (fun qv => filterJoin (sem qv)) (some q) qs) := by
    rw [paginate]
    exact (List.take_sublist _ _).trans (List.drop_sublist _ _)
  have := hsub.count_le r
  omega

/-- Witness for the C6 theorem: one record with two nested sub-records that
both match the nested condition. -/
theorem nested_filter_deduplicated_witness :
    (listFilterStep
        (fun _ => filterJoin (fun _ sub => sub.fields.any fun f => decide (f.2 = "ne")))
        (some (QVal.obj [("records__region", QVal.str "ne")]))
        [⟨[("country", "eng")],
          [⟨[("region", "ne")]⟩, ⟨[("region", "ne")]⟩]⟩]).count
      ⟨[("country", "eng")], [⟨[("region", "ne")]⟩, ⟨[("region", "ne")]⟩]⟩ = 1 ∧
    ∀ start size,
      (paginate start size
        (listFilterStep
          (fun _ => filterJoin (fun _ sub => sub.fields.any fun f => decide (f.2 = "ne")))
          (some (QVal.obj [("records__region", QVal.str "ne")]))
          [⟨[("country", "eng")],
            [⟨[("region", "ne")]⟩, ⟨[("region", "ne")]⟩]⟩])).count
        ⟨[("country", "eng")], [⟨[("region", "ne")]⟩, ⟨[("region", "ne")]⟩]⟩ ≤ 1 :=
  nested_filter_deduplicated
    (fun _ _ sub => sub.fields.any fun f => decide (f.2 = "ne"))
    (QVal.obj [("records__region", QVal.str "ne")])
    [⟨[("country", "eng")], [⟨[("region", "ne")]⟩, ⟨[("region", "ne")]⟩]⟩]
    ⟨[("country", "eng")], [⟨[("region", "ne")]⟩, ⟨[("region", "ne")]⟩]⟩
    ⟨[("region", "ne")]⟩ (by decide) (by decide) (by decide)

/-! ## Accumulation of field-keyed errors

Lines 416-442 of `onyx/data/views.py`: every atom key and every
include/exclude/summarise field is resolved, failures are recorded in the
`field_errors` dictionary (a Python dict keyed by the offending field, in
insertion order), and a single `ValidationError` carrying the whole
dictionary is raised if any failure was recorded. -/

/-- The Python idiom `errors.setdefault(key, []).append(msg)`: append the
message to the entry of `key`, creating the entry (at the end, preserving
insertion order) if absent. -/
def addFieldError (errors : List (String × List String)) (key msg : String) :
    List (String × List String) :=
  if errors.any fun p => p.1 == key then
    errors.map fun p => if p.1 == key then (p.1, p.2 ++ [msg]) else p
  else errors ++ [(key, [msg])]

/-- Lines 417-439 of `onyx/data/views.py`: resolve every atom key (with
lookups allowed) and then every include/exclude/summarise field (lookups not
allowed), collecting all failures keyed by the offending field.  The two
resolvers are parameters: the field handler itself lives in
`onyx/data/fields.py`. -/
def collectFieldErrors (resolveAtomKey resolveExtra : String → Except String α)
    (atomKeys extraKeys : List String) : List (String × List String) :=
  let atomErrors := atomKeys.foldl
    (fun acc k => match resolveAtomKey k with
      | Except.ok _ => acc
      | Except.error e => addFieldError acc k e) []
  extraKeys.foldl
    (fun acc k => match resolveExtra k with
      | Except.ok _ => acc
      | Except.error e => addFieldError acc k e) atomErrors

/-- Lines 441-442 of `onyx/data/views.py`: if any field-keyed error was
collected, the request fails with one error response carrying all of them. -/
def fieldValidationStep (resolveAtomKey resolveExtra : String → Except String α)
    (atomKeys extraKeys : List String) : Except (List (String × List String)) Unit :=
  let errs := collectFieldErrors resolveAtomKey resolveExtra atomKeys extraKeys
  if errs.isEmpty then Except.ok () else Except.error errs

/-- Keys present after a `setdefault`-append: those already present plus the
added key. -/
theorem mem_keys_addFieldError (errors : List (String × List String))
    (key msg x : String) :
    x ∈ (addFieldError errors key msg).map Prod.fst ↔
      x ∈ errors.map Prod.fst ∨ x = key := by
  rw [addFieldError]
  split
  · next hany =>
    have hkeys : (errors.map fun p => if p.1 == key then (p.1, p.2 ++ [msg]) else p).map
        Prod.fst = errors.map Prod.fst := by
      rw [List.map_map]
      refine List.map_congr_left fun p _ => ?_
      by_cases hp : p.1 = key <;> simp [hp]
    rw [hkeys]
    simp only [List.any_eq_true, beq_iff_eq] at hany
    obtain ⟨p, hp, hpk⟩ := hany
    constructor
    · exact Or.inl
    · rintro (hx | rfl)
      · exact hx
      · exact List.mem_map.2 ⟨p, hp, hpk⟩
  · simp

/-- Keys present after folding the error-collection step over a list of
keys: those already present plus every key of the list whose resolution
fails.  An earlier failure never suppresses a later one. -/
theorem mem_keys_foldl_resolve (resolve : String → Except String α)
    (ks : List String) (acc : List (String × List String)) (x : String) :
    (x ∈ (ks.foldl (fun a k => match resolve k with
        | Except.ok _ => a
        | Except.error e => addFieldError a k e) acc).map Prod.fst) ↔
      x ∈ acc.map Prod.fst ∨ (x ∈ ks ∧ (resolve x).isOk = false) := by
  induction ks generalizing acc with
  | nil => simp
  | cons k ks ih =>
    rw [List.foldl_cons]
    cases hk : resolve k with
    | ok v =>
      rw [ih]
      constructor
      · rintro (h | h)
        · exact Or.inl h
        · exact Or.inr ⟨List.mem_cons_of_mem k h.1, h.2⟩
      · rintro (h | ⟨hmem, hfail⟩)
        · exact Or.inl h
        · rcases List.mem_cons.1 hmem with rfl | hmem
          · rw [hk] at hfail
            simp [Except.isOk, Except.toBool] at hfail
          · exact Or.inr ⟨hmem, hfail⟩
    | error e =>
      rw [ih, mem_keys_addFieldError]
      constructor
      · rintro ((h | rfl) | h)
        · exact Or.inl h
        · refine Or.inr ⟨List.mem_cons_self _ _, ?_⟩
          rw [hk]
          rfl
        · exact Or.inr ⟨List.mem_cons_of_mem k h.1, h.2⟩
      · rintro (h | ⟨hmem, hfail⟩)
        · exact Or.inl (Or.inl h)
        · rcases List.mem_cons.1 hmem with rfl | hmem
          · exact Or.inl (Or.inr rfl)
          · exact Or.inr ⟨hmem, hfail⟩

/-- Claim C2: for every filter/query request whose expression parses into
atoms, field resolution is attempted for every atom key and for every
include/exclude/summarise field even after earlier ones fail; a field key is
reported in the single error response exactly when its own resolution fails,
so one atom's failure never suppresses another atom's error, and all
field-keyed errors are returned together. -/
theorem field_errors_accumulated (resolveAtomKey resolveExtra : String → Except String α)
    (atomKeys extraKeys : List String) (k : String) :
    (∃ errs, fieldValidationStep resolveAtomKey resolveExtra atomKeys extraKeys =
        Except.error errs ∧ k ∈ errs.map Prod.fst) ↔
      ((k ∈ atomKeys ∧ (resolveAtomKey k).isOk = false) ∨
        (k ∈ extraKeys ∧ (resolveExtra k).isOk = false)) := by
  have hkeys : ∀ x, (x ∈ (collectFieldErrors resolveAtomKey resolveExtra
      atomKeys extraKeys).map Prod.fst) ↔
      ((x ∈ atomKeys ∧ (resolveAtomKey x).isOk = false) ∨
        (x ∈ extraKeys ∧ (resolveExtra x).isOk = false)) := by
    intro x
    rw [collectFieldErrors]
    rw [mem_keys_foldl_resolve, mem_keys_foldl_resolve]
    simp only [List.map_nil, List.not_mem_nil, false_or]
  rw [fieldValidationStep]
  split
  · next hempty =>
    rw [List.isEmpty_iff] at hempty
    constructor
    · rintro ⟨errs, habs, _⟩
      exact absurd habs (by simp)
    · intro h
      have := (hkeys k).2 h
      rw [hempty] at this
      simp at this
  · next hempty =>
    constructor
    · rintro ⟨errs, herr, hk⟩
      have : errs = collectFieldErrors resolveAtomKey resolveExtra atomKeys extraKeys := by
        injection herr.symm
      exact (hkeys k).1 (this ▸ hk)
    · intro h
      exact ⟨_, rfl, (hkeys k).2 h⟩

/-! ## The summarise cardinality guard

Lines 501-514 of `onyx/data/views.py`.  `qs.values(*summarise)` projects the
filtered queryset onto the summarised fields (one value tuple per record,
duplicates preserved); the guard counts the distinct tuples and refuses to
aggregate past a fixed ceiling of 100000; otherwise
`annotate(count=Count("*"))` groups the tuples and counts each group.
The ordering applied by `order_by(*summarise)` is not modelled; groups are
listed in first-occurrence order. -/

/-- Lines 501-514 of `onyx/data/views.py`: count the distinct projected value
tuples under the current predicate; past the ceiling of 100000 fail with a
descriptive validation error and perform no aggregation, otherwise return the
grouped counts. -/
def summariseGuard (vals : List (List String)) :
    Except (List (String × List String)) (List (List String × Nat)) :=
  if 100000 < vals.dedup.length then
    Except.error [("detail",
      ["The current summary would return too many distinct values."])]
  else
    Except.ok (vals.dedup.map fun v => (v, vals.count v))

/-- Claim C3: for every summarise request, if the number of distinct values
of the summarised field(s) under the current predicate exceeds the fixed
ceiling of 100000, the operation fails with a descriptive validation error
and returns no grouped counts; if it does not exceed the ceiling, the grouped
counts are computed and returned: one group per distinct value tuple, each
with its exact multiplicity, the group sizes summing to the total number of
filtered records. -/
theorem summarise_cardinality_guard (vals : List (List String)) :
    if 100000 < vals.dedup.length then
      summariseGuard vals = Except.error [("detail",
        ["The current summary would return too many distinct values."])]
    else
      ∃ out, summariseGuard vals = Except.ok out ∧
        out.map Prod.fst = vals.dedup ∧
        (∀ p ∈ out, p.2 = vals.count p.1 ∧ 0 < p.2) ∧
        (out.map Prod.snd).sum = vals.length := by
  split
  · next h => simp [summariseGuard, h]
  · next h =>
    refine ⟨vals.dedup.map fun v => (v, vals.count v), ?_, ?_, ?_, ?_⟩
    · simp [summariseGuard, h]
    · rw [List.map_map]
      have hid : (Prod.fst ∘ fun v : List String => (v, List.count v vals)) = id := rfl
      rw [hid, List.map_id]
    · intro p hp
      obtain ⟨v, hv, rfl⟩ := List.mem_map.1 hp
      exact ⟨rfl, List.count_pos_iff.2 (List.mem_dedup.1 hv)⟩
    · rw [List.map_map]
      have hinst : (List.instBEq : BEq (List String)) = instBEqOfDecidableEq :=
        lawful_beq_subsingleton _ _
      have : (Prod.snd ∘ fun v => (v, List.count v vals)) =
          fun v : List String => List.count v vals := rfl
      rw [this]
      rw [show (fun v : List String => List.count v vals) =
          (fun v : List String => @List.count _ instBEqOfDecidableEq v vals) by
        rw [← hinst]]
      exact List.sum_map_count_dedup_eq_length vals

/-! ## Field catalog and resolution

The field handler of `onyx/data/fields.py` is not among the provided
sources; the catalog and resolver below are modelled from spec sections 3
and 4.1.  `onyx/data/views.py` and `onyx/data/models/models.py` constrain the
model: `resolve_field` is called with `allow_lookup=True` only for filter
atoms, and field names must never match existing lookups
(`BaseRecord.check`). -/

/-- The closed enumeration of field types (spec section 3; `OnyxType` of
`onyx/data/types.py`). -/
inductive OnyxType where
  | text
  | choice
  | integer
  | decimal
  | date
  | yearmonth
  | datetime
  | boolean
  | relation
  | structured
  | array
  deriving DecidableEq

/-- Modelled from the spec: the global table of lookup names that may trail a
filter key as a `__lookup` suffix (`ALL_LOOKUPS` of `onyx/data/types.py`). -/
def knownLookups : List String :=
  ["exact", "ne", "in", "notin", "contains", "startswith", "endswith",
   "iexact", "icontains", "istartswith", "iendswith", "regex", "iregex",
   "lt", "lte", "gt", "gte", "range", "isnull", "iso_year", "week"]

/-- A catalog entry: a dotted/underscored field path, its type, the scopes
that expose it (base fields carry the scope `base`), and the actions it
permits (spec section 3, `FieldDescriptor`). -/
structure OnyxField where
  path : String
  onyx_type : OnyxType
  scopes : List String
  actions : List String
  deriving DecidableEq

/-- Modelled from the spec: strip a trailing `__lookup` suffix from a filter
key when lookups are allowed (the rightmost path segment matching a known
lookup name); with `allow_lookup=False` the key is used as given, so a
trailing lookup suffix becomes an unknown path (spec section 4.1). -/
def stripLookup (allowLookup : Bool) (key : String) : String :=
  if allowLookup then
    match knownLookups.find? fun l => ("__" ++ l).toList.isSuffixOf key.toList with
    | some l => String.mk (key.toList.take (key.toList.length - (l.length + 2)))
    | none => key
  else key

/-- ASCII lowercasing of one character, used for the resolver's
case-insensitive path matching. -/
def lowerChar (c : Char) : Char :=
  if 'A' ≤ c ∧ c ≤ 'Z' then Char.ofNat (c.toNat + 32) else c

/-- ASCII lowercasing of a path. -/
def lowerStr (s : String) : String :=
  String.mk (s.toList.map lowerChar)

/-- Modelled from the spec: whether the actor, granted `granted` scopes on
top of the implicit `base` scope, may use the field for the action (spec
sections 3 and 4.1). -/
def visibleTo (granted : List String) (action : String) (f : OnyxField) : Bool :=
  f.actions.contains action &&
    f.scopes.any fun s => ("base" :: granted).contains s

/-- Modelled from the spec: `FieldHandler.resolve_field` of
`onyx/data/fields.py`.  The key (with any permitted lookup suffix removed) is
matched case-insensitively against the catalog; an unknown path and a path
outside every scope granted to the actor for the action produce the very same
unknown-field error (spec section 4.1, information hiding). -/
def resolve_field (catalog : List OnyxField) (granted : List String)
    (action : String) (allowLookup : Bool) (key : String) :
    Except String OnyxField :=
  let fieldPath := stripLookup allowLookup key
  match catalog.find? fun f => lowerStr f.path == lowerStr fieldPath with
  | none => Except.error "This field is unknown."
  | some f =>
    if visibleTo granted action f then Except.ok f
    else Except.error "This field is unknown."

/-- Claim C4: a field path that is absent from the catalog and a field path
that exists but lies outside every scope granted to the actor for the
current action are rejected with the very same unknown-field error; the two
error responses are indistinguishable, and no forbidden variant exists. -/
theorem unknown_and_out_of_scope_indistinguishable
    (catalog : List OnyxField) (granted : List String) (action : String)
    (allowLookup : Bool) (k1 k2 : String) (f : OnyxField)
    (h1 : catalog.find?
      (fun fd => lowerStr fd.path == lowerStr (stripLookup allowLookup k1)) = none)
    (h2 : catalog.find?
      (fun fd => lowerStr fd.path == lowerStr (stripLookup allowLookup k2)) = some f)
    (h3 : visibleTo granted action f = false) :
    resolve_field catalog granted action allowLookup k1 =
      Except.error "This field is unknown." ∧
    resolve_field catalog granted action allowLookup k2 =
      Except.error "This field is unknown." ∧
    resolve_field catalog granted action allowLookup k1 =
      resolve_field catalog granted action allowLookup k2 := by
  have e1 : resolve_field catalog granted action allowLookup k1 =
      Except.error "This field is unknown." := by
    rw [resolve_field]
    rw [h1]
  have e2 : resolve_field catalog granted action allowLookup k2 =
      Except.error "This field is unknown." := by
    rw [resolve_field]
    rw [h2]
    simp [h3]
  exact ⟨e1, e2, e1.trans e2.symm⟩

/-- Witness for the C4 theorem: a catalog with one admin-scoped field, an
actor with no granted scopes, an absent path and the out-of-scope path. -/
theorem unknown_and_out_of_scope_indistinguishable_witness :
    resolve_field [⟨"secret_notes", OnyxType.text, ["admin"], ["view"]⟩]
        [] "view" true "no_such_field" = Except.error "This field is unknown." ∧
    resolve_field [⟨"secret_notes", OnyxType.text, ["admin"], ["view"]⟩]
        [] "view" true "secret_notes" = Except.error "This field is unknown." ∧
    resolve_field [⟨"secret_notes", OnyxType.text, ["admin"], ["view"]⟩]
        [] "view" true "no_such_field" =
      resolve_field [⟨"secret_notes", OnyxType.text, ["admin"], ["view"]⟩]
        [] "view" true "secret_notes" :=
  unknown_and_out_of_scope_indistinguishable
    [⟨"secret_notes", OnyxType.text, ["admin"], ["view"]⟩] [] "view" true
    "no_such_field" "secret_notes"
    ⟨"secret_notes", OnyxType.text, ["admin"], ["view"]⟩
    (by decide) (by decide) (by decide)

/-! ## The summarise pipeline

Lines 433-514 of `onyx/data/views.py`, specialised to a summarise-only
request (no filter atoms): every summarise field is resolved without lookups
(lines 435-439) and any failure aborts the request (441-442); resolved
Relation-typed fields are rejected (493-499); then the cardinality guard and
grouped counts run (501-514). -/

/-- Projection of one record onto the summarised fields, as
`qs.values(*self.summarise)` does (line 501); one value tuple per record. -/
def projectValues (summarise : List String) (row : List (String × String)) :
    List String :=
  summarise.map fun f => ((row.lookup f).getD "")

/-- Lines 435-439 of `onyx/data/views.py`: resolve every
include/exclude/summarise field with lookups not allowed, accumulating
failures keyed by field and keeping the resolved fields of the successes. -/
def resolveExtras (catalog : List OnyxField) (granted : List String)
    (action : String) (extras : List String) :
    List (String × List String) × List (String × OnyxField) :=
  extras.foldl
    (fun acc f =>
      match resolve_field catalog granted action false f with
      | Except.ok fd => (acc.1, acc.2 ++ [(f, fd)])
      | Except.error e => (addFieldError acc.1 f e, acc.2)) ([], [])

/-- Lines 492-498 of `onyx/data/views.py`: a summarise field resolved to a
Relation-typed field is an error. -/
def summariseRelationErrors (resolved : List (String × OnyxField)) :
    List (String × List String) :=
  resolved.foldl
    (fun acc fv =>
      if fv.2.onyx_type == OnyxType.relation then
        addFieldError acc fv.1 "Cannot summarise over a relational field."
      else acc) []

/-- The summarise path of `ProjectRecordsViewSet.list` (lines 433-514 of
`onyx/data/views.py`) for a request with no filter atoms: field resolution
errors, then relation errors, then the cardinality guard and the grouped
counts. -/
def summarisePipeline (catalog : List OnyxField) (granted : List String)
    (action : String) (summarise : List String)
    (rows : List (List (String × String))) :
    Except (List (String × List String)) (List (List String × Nat)) :=
  let res := resolveExtras catalog granted action summarise
  if res.1.isEmpty then
    let relErrs := summariseRelationErrors res.2
    if relErrs.isEmpty then summariseGuard (rows.map (projectValues summarise))
    else Except.error relErrs
  else Except.error res.1

/-- Keys of the error side of the extra-field resolution fold. -/
theorem mem_keys_resolveExtras_foldl (catalog : List OnyxField)
    (granted : List String) (action : String) (extras : List String)
    (acc : List (String × List String) × List (String × OnyxField)) (x : String) :
    (x ∈ (extras.foldl
        (fun acc f =>
          match resolve_field catalog granted action false f with
          | Except.ok fd => (acc.1, acc.2 ++ [(f, fd)])
          | Except.error e => (addFieldError acc.1 f e, acc.2)) acc).1.map Prod.fst) ↔
      x ∈ acc.1.map Prod.fst ∨
        (x ∈ extras ∧ (resolve_field catalog granted action false x).isOk = false) := by
  induction extras generalizing acc with
  | nil => simp
  | cons f fs ih =>
    rw [List.foldl_cons]
    cases hf : resolve_field catalog granted action false f with
    | ok fd =>
      rw [ih]
      constructor
      · rintro (h | h)
        · exact Or.inl h
        · exact Or.inr ⟨List.mem_cons_of_mem f h.1, h.2⟩
      · rintro (h | ⟨hmem, hfail⟩)
        · exact Or.inl h
        · rcases List.mem_cons.1 hmem with rfl | hmem
          · rw [hf] at hfail
            simp [Except.isOk, Except.toBool] at hfail
          · exact Or.inr ⟨hmem, hfail⟩
    | error e =>
      rw [ih]
      simp only [mem_keys_addFieldError]
      constructor
      · rintro ((h | rfl) | h)
        · exact Or.inl h
        · refine Or.inr ⟨List.mem_cons_self _ _, ?_⟩
          rw [hf]
          rfl
        · exact Or.inr ⟨List.mem_cons_of_mem f h.1, h.2⟩
      · rintro (h | ⟨hmem, hfail⟩)
        · exact Or.inl (Or.inl h)
        · rcases List.mem_cons.1 hmem with rfl | hmem
          · exact Or.inl (Or.inr rfl)
          · exact Or.inr ⟨hmem, hfail⟩

/-- Resolved side of the extra-field resolution fold: exactly the pairs of a
field of the list with its successfully resolved catalog entry. -/
theorem mem_snd_resolveExtras_foldl (catalog : List OnyxField)
    (granted : List String) (action : String) (extras : List String)
    (acc : List (String × List String) × List (String × OnyxField))
    (p : String × OnyxField) :
    (p ∈ (extras.foldl
        (fun acc f =>
          match resolve_field catalog granted action false f with
          | Except.ok fd => (acc.1, acc.2 ++ [(f, fd)])
          | Except.error e => (addFieldError acc.1 f e, acc.2)) acc).2) ↔
      p ∈ acc.2 ∨
        (p.1 ∈ extras ∧ resolve_field catalog granted action false p.1 = Except.ok p.2) := by
  induction extras generalizing acc with
  | nil => simp
  | cons f fs ih =>
    rw [List.foldl_cons]
    cases hf : resolve_field catalog granted action false f with
    | ok fd =>
      rw [ih]
      simp only [List.mem_append, List.mem_singleton]
      constructor
      · rintro ((h | rfl) | h)
        · exact Or.inl h
        · exact Or.inr ⟨List.mem_cons_self _ _, hf⟩
        · exact Or.inr ⟨List.mem_cons_of_mem f h.1, h.2⟩
      · rintro (h | ⟨hmem, hok⟩)
        · exact Or.inl (Or.inl h)
        · rcases List.mem_cons.1 hmem with h1 | hmem
          · refine Or.inl (Or.inr ?_)
            rw [h1] at hok
            rw [hf] at hok
            obtain ⟨p1, p2⟩ := p
            simp only at h1 hok ⊢
            injection hok with hok
            rw [h1, hok]
          · exact Or.inr ⟨hmem, hok⟩
    | error e =>
      rw [ih]
      constructor
      · rintro (h | h)
        · exact Or.inl h
        · exact Or.inr ⟨List.mem_cons_of_mem f h.1, h.2⟩
      · rintro (h | ⟨hmem, hok⟩)
        · exact Or.inl h
        · rcases List.mem_cons.1 hmem with rfl | hmem
          · rw [hf] at hok
            cases hok
          · exact Or.inr ⟨hmem, hok⟩

/-- Keys of the relation-check fold: exactly the resolved summarise fields
whose catalog entry is Relation-typed. -/
theorem mem_keys_relationErrors (resolved : List (String × OnyxField)) (x : String) :
    (x ∈ (summariseRelationErrors resolved).map Prod.fst) ↔
      ∃ fd, (x, fd) ∈ resolved ∧ fd.onyx_type = OnyxType.relation := by
  rw [summariseRelationErrors]
  suffices h : ∀ acc : List (String × List String),
      (x ∈ (resolved.foldl
        (fun acc fv =>
          if fv.2.onyx_type == OnyxType.relation then
            addFieldError acc fv.1 "Cannot summarise over a relational field."
          else acc) acc).map Prod.fst) ↔
      x ∈ acc.map Prod.fst ∨ ∃ fd, (x, fd) ∈ resolved ∧ fd.onyx_type = OnyxType.relation by
    rw [h []]
    simp
  induction resolved with
  | nil => simp
  | cons fv fvs ih =>
    intro acc
    rw [List.foldl_cons]
    by_cases hrel : fv.2.onyx_type = OnyxType.relation
    · simp only [hrel, beq_self_eq_true, if_pos]
      rw [ih]
      simp only [mem_keys_addFieldError]
      constructor
      · rintro ((h | rfl) | ⟨fd, hfd, hfdrel⟩)
        · exact Or.inl h
        · exact Or.inr ⟨fv.2, by simp, hrel⟩
        · exact Or.inr ⟨fd, List.mem_cons_of_mem fv hfd, hfdrel⟩
      · rintro (h | ⟨fd, hfd, hfdrel⟩)
        · exact Or.inl (Or.inl h)
        · rcases List.mem_cons.1 hfd with h1 | hfd
          · exact Or.inl (Or.inr (congrArg Prod.fst h1))
          · exact Or.inr ⟨fd, hfd, hfdrel⟩
    · have : (fv.2.onyx_type == OnyxType.relation) = false := by
        simp [hrel]
      simp only [this, Bool.false_eq_true, if_neg, ite_false]
      rw [ih]
      constructor
      · rintro (h | ⟨fd, hfd, hfdrel⟩)
        · exact Or.inl h
        · exact Or.inr ⟨fd, List.mem_cons_of_mem fv hfd, hfdrel⟩
      · rintro (h | ⟨fd, hfd, hfdrel⟩)
        · exact Or.inl h
        · rcases List.mem_cons.1 hfd with h1 | hfd
          · exact absurd (congrArg Prod.snd h1 ▸ hfdrel) hrel
          · exact Or.inr ⟨fd, hfd, hfdrel⟩

/-- Counterexample to claim C7: a summarise request with two scalar fields
is accepted and aggregated — the operation does not restrict summarising to
exactly one field (`summarise` is a repeatable query parameter, line 96 of
`onyx/data/views.py`, and `values(*self.summarise)` takes all of them). -/
theorem summarise_accepts_two_fields :
    summarisePipeline
      [⟨"sample_id", OnyxType.text, ["base"], ["view"]⟩,
       ⟨"run_name", OnyxType.text, ["base"], ["view"]⟩]
      [] "view" ["sample_id", "run_name"]
      [[("sample_id", "s-1"), ("run_name", "r-1")],
       [("sample_id", "s-2"), ("run_name", "r-1")]] =
      Except.ok [(["s-1", "r-1"], 1), (["s-2", "r-1"], 1)] := by
  rfl

/-- Claim C7 as amended: the summarise operation accepts one or more field
names (not exactly one); it rejects with a field-keyed validation error,
before any aggregation, every summarise field that is Relation-typed or that
fails no-lookup field resolution — in particular any field carrying a
trailing lookup suffix, which resolve as given and (field names never being
lookup names, per `BaseRecord.check`) miss the catalog. -/
theorem summarise_validation_amended (catalog : List OnyxField)
    (granted : List String) (action : String) (summarise : List String)
    (rows : List (List (String × String))) :
    ((∀ f ∈ summarise, ∃ fd, resolve_field catalog granted action false f = Except.ok fd ∧
        fd.onyx_type ≠ OnyxType.relation) →
      summarisePipeline catalog granted action summarise rows =
        summariseGuard (rows.map (projectValues summarise))) ∧
    (∀ f ∈ summarise,
      ((∃ e, resolve_field catalog granted action false f = Except.error e) ∨
        (∃ fd, resolve_field catalog granted action false f = Except.ok fd ∧
          fd.onyx_type = OnyxType.relation)) →
      ∃ errs, summarisePipeline catalog granted action summarise rows =
        Except.error errs ∧ errs ≠ []) ∧
    (∀ f g l, f = g ++ "__" ++ l → l ∈ knownLookups →
      catalog.find? (fun fd => lowerStr fd.path == lowerStr f) = none →
      resolve_field catalog granted action false f =
        Except.error "This field is unknown.") := by
  refine ⟨?_, ?_, ?_⟩
  · intro h
    have herr : (resolveExtras catalog granted action summarise).1 = [] := by
      by_contra hne
      obtain ⟨p, hp⟩ := List.exists_mem_of_ne_nil _ hne
      have hkey : p.1 ∈ (resolveExtras catalog granted action summarise).1.map Prod.fst :=
        List.mem_map.2 ⟨p, hp, rfl⟩
      rw [resolveExtras] at hkey
      rw [mem_keys_resolveExtras_foldl] at hkey
      simp only [List.map_nil, List.not_mem_nil, false_or] at hkey
      obtain ⟨fd, hfd, _⟩ := h p.1 hkey.1
      rw [hfd] at hkey
      simp [Except.isOk, Except.toBool] at hkey
    have hrel : summariseRelationErrors (resolveExtras catalog granted action summarise).2 = [] := by
      by_contra hne
      obtain ⟨p, hp⟩ := List.exists_mem_of_ne_nil _ hne
      have hkey : p.1 ∈ (summariseRelationErrors
          (resolveExtras catalog granted action summarise).2).map Prod.fst :=
        List.mem_map.2 ⟨p, hp, rfl⟩
      rw [mem_keys_relationErrors] at hkey
      obtain ⟨fd, hfd, hfdrel⟩ := hkey
      have hmem := hfd
      rw [resolveExtras] at hmem
      rw [mem_snd_resolveExtras_foldl] at hmem
      simp only [List.not_mem_nil, false_or] at hmem
      obtain ⟨fd2, hfd2, hfd2rel⟩ := h p.1 hmem.1
      rw [hmem.2] at hfd2
      injection hfd2 with hfd2
      exact hfd2rel (hfd2 ▸ hfdrel)
    rw [summarisePipeline, herr, hrel]
    simp
  · intro f hf hbad
    have hfailOrRel : (resolve_field catalog granted action false f).isOk = false ∨
        (∃ fd, resolve_field catalog granted action false f = Except.ok fd ∧
          fd.onyx_type = OnyxType.relation) := by
      rcases hbad with ⟨e, he⟩ | h
      · left
        rw [he]
        rfl
      · exact Or.inr h
    rcases hfailOrRel with hfail | ⟨fd, hok, hrel⟩
    · have hkey : f ∈ (resolveExtras catalog granted action summarise).1.map Prod.fst := by
        rw [resolveExtras, mem_keys_resolveExtras_foldl]
        exact Or.inr ⟨hf, hfail⟩
      have hne : (resolveExtras catalog granted action summarise).1 ≠ [] := by
        intro habs
        rw [habs] at hkey
        simp at hkey
      rw [summarisePipeline]
      rw [if_neg (by simpa [List.isEmpty_iff] using hne)]
      exact ⟨_, rfl, hne⟩
    · by_cases herr : (resolveExtras catalog granted action summarise).1 = []
      · have hmem : (f, fd) ∈ (resolveExtras catalog granted action summarise).2 := by
          rw [resolveExtras, mem_snd_resolveExtras_foldl]
          exact Or.inr ⟨hf, hok⟩
        have hkey : f ∈ (summariseRelationErrors
            (resolveExtras catalog granted action summarise).2).map Prod.fst := by
          rw [mem_keys_relationErrors]
          exact ⟨fd, hmem, hrel⟩
        have hne : summariseRelationErrors
            (resolveExtras catalog granted action summarise).2 ≠ [] := by
          intro habs
          rw [habs] at hkey
          simp at hkey
        rw [summarisePipeline]
        rw [if_pos (by simpa [List.isEmpty_iff] using herr)]
        rw [if_neg (by simpa [List.isEmpty_iff] using hne)]
        exact ⟨_, rfl, hne⟩
      · rw [summarisePipeline]
        rw [if_neg (by simpa [List.isEmpty_iff] using herr)]
        exact ⟨_, rfl, herr⟩
  · intro f g l hfl hlk hfind
    rw [resolve_field]
    have hstrip : stripLookup false f = f := rfl
    rw [hstrip, hfind]

/-- Witness for the amended C7 theorem: a catalog whose `records` field is a
relation; summarising over it fails with a non-empty field-keyed error. -/
theorem summarise_validation_amended_witness :
    ∃ errs, summarisePipeline
        [⟨"records", OnyxType.relation, ["base"], ["view"]⟩]
        [] "view" ["records"] [] = Except.error errs ∧ errs ≠ [] :=
  (summarise_validation_amended
      [⟨"records", OnyxType.relation, ["base"], ["view"]⟩] [] "view" ["records"] []).2.1
    "records" (by decide)
    (Or.inr ⟨⟨"records", OnyxType.relation, ["base"], ["view"]⟩, rfl, rfl⟩)

/-! ## Year-month coercion

`YearMonthField.to_internal_value` of `metadb/utils/fieldserializers.py`:
`year, month = str(data).split("-")` (a two-element unpack, raising the
YYYY-MM format error on any other shape), then `date(int(year), int(month), 1)`
inside `try ... except ValueError`.  `int` failures and out-of-range dates
raise `ValueError` and become validation errors; but a component outside the
C `int` range makes the date constructor raise `OverflowError`, which is not
a `ValueError` subclass and escapes the handler as an unhandled server
error. -/

/-- Python `str.split` with a one-character separator: splitting accumulator
helper. -/
def splitOnCharAux (sep : Char) : List Char → List Char → List (List Char)
  | [], acc => [acc.reverse]
  | c :: rest, acc =>
    if c = sep then acc.reverse :: splitOnCharAux sep rest []
    else splitOnCharAux sep rest (c :: acc)

/-- Python `str.split` with a one-character separator (`"".split` gives one
empty part; separators are never merged). -/
def pySplit (s : String) (sep : Char) : List String :=
  (splitOnCharAux sep s.toList []).map String.mk

/-- The whitespace characters `int()` strips (ASCII subset). -/
def isSpaceChar (c : Char) : Bool :=
  [' ', '\t', '\n', '\r', '\x0b', '\x0c'].contains c

/-- Digit run of a Python integer literal after the first digit: underscores
are allowed only singly and between digits. -/
def pyDigitsAux : Nat → List Char → Option Nat
  | acc, [] => some acc
  | acc, c :: rest =>
    if c.isDigit then pyDigitsAux (10 * acc + (c.toNat - 48)) rest
    else if c = '_' then
      match rest with
      | d :: rest2 =>
        if d.isDigit then pyDigitsAux (10 * acc + (d.toNat - 48)) rest2
        else none
      | [] => none
    else none

/-- Digit run of a Python integer literal: non-empty and starting with a
digit. -/
def pyDigits? : List Char → Option Nat
  | [] => none
  | c :: rest => if c.isDigit then pyDigitsAux (c.toNat - 48) rest else none

/-- Strip leading and trailing whitespace, as `int()` does. -/
def stripSpaces (cs : List Char) : List Char :=
  ((cs.dropWhile isSpaceChar).reverse.dropWhile isSpaceChar).reverse

/-- Python `int(str)`: optional surrounding whitespace, an optional sign,
then a non-empty digit run (ASCII digits; partial parses fail rather than
truncate). -/
def pyInt? (s : String) : Option Int :=
  match stripSpaces s.toList with
  | '+' :: rest => (pyDigits? rest).map Int.ofNat
  | '-' :: rest => (pyDigits? rest).map fun n => -(Int.ofNat n : Int)
  | rest => (pyDigits? rest).map Int.ofNat

/-- A Python `datetime.date` value. -/
structure PyDate where
  year : Int
  month : Int
  day : Int
  deriving DecidableEq

/-- Python `date` bounds on year and month: `MINYEAR = 1`, `MAXYEAR = 9999`,
months 1-12. -/
def validYearMonth (y m : Int) : Bool :=
  (1 ≤ y && y ≤ 9999) && (1 ≤ m && m ≤ 12)

/-- Gregorian leap years, as Python `calendar.isleap`. -/
def isLeapYear (y : Int) : Bool :=
  (y % 4 == 0 && y % 100 != 0) || y % 400 == 0

/-- Days of a month (the catch-all branch covers the 31-day months). -/
def daysInMonth (y m : Int) : Int :=
  if m = 2 then (if isLeapYear y then 29 else 28)
  else if m = 4 ∨ m = 6 ∨ m = 9 ∨ m = 11 then 30
  else 31

/-- Failure modes of the `date(year, month, day)` constructor: `ValueError`
for components within C `int` range but outside the valid dates (caught by
the serializer), and `OverflowError` when a component does not fit a C `int`
(not a `ValueError` subclass, so never caught by `except ValueError`). -/
inductive PyDateError where
  | valueError : String → PyDateError
  | overflowError : PyDateError
  deriving DecidableEq

/-- The C `int` range into which CPython converts the date constructor's
arguments. -/
def inCIntRange (v : Int) : Bool :=
  -(2 ^ 31) ≤ v && v ≤ 2 ^ 31 - 1

/-- The `date(year, month, day)` constructor: argument conversion to C `int`
first (`OverflowError` outside its range), then the range checks
(`ValueError` outside the valid dates). -/
def mkDate (y m d : Int) : Except PyDateError PyDate :=
  if inCIntRange y = true ∧ inCIntRange m = true ∧ inCIntRange d = true then
    if validYearMonth y m = true ∧ 1 ≤ d ∧ d ≤ daysInMonth y m then
      Except.ok ⟨y, m, d⟩
    else Except.error (PyDateError.valueError "year, month or day is out of range")
  else Except.error PyDateError.overflowError

/-- Outcome of the year-month coercion as observed through the view: a
coerced value, a raised validation error (a 400-class response), or an
exception escaping the `except ValueError` handler (an unhandled server
error). -/
inductive YearMonthOutcome where
  | ok : PyDate → YearMonthOutcome
  | validationError : String → YearMonthOutcome
  | uncaughtError : YearMonthOutcome
  deriving DecidableEq

/-- The `date(int(year), int(month), 1)` step of
`YearMonthField.to_internal_value`: an integer-conversion failure raises
`ValueError`, turned into a validation error; the date constructor's
`ValueError` is likewise caught, but its `OverflowError` is not. -/
def yearMonthOfParts (oy om : Option Int) : YearMonthOutcome :=
  match oy with
  | none => YearMonthOutcome.validationError "invalid literal for int with base 10"
  | some y =>
    match om with
    | none => YearMonthOutcome.validationError "invalid literal for int with base 10"
    | some m =>
      match mkDate y m 1 with
      | Except.ok d => YearMonthOutcome.ok d
      | Except.error (PyDateError.valueError msg) =>
        YearMonthOutcome.validationError msg
      | Except.error PyDateError.overflowError => YearMonthOutcome.uncaughtError

/-- `YearMonthField.to_internal_value` of `metadb/utils/fieldserializers.py`
(lines 9-21): a two-element split on the dash (any other shape raises the
YYYY-MM format validation error), then integer conversion of both parts and
construction of the first day of the month, with only `ValueError` caught. -/
def yearMonthToInternal (data : String) : YearMonthOutcome :=
  match pySplit data '-' with
  | [year, month] => yearMonthOfParts (pyInt? year) (pyInt? month)
  | _ => YearMonthOutcome.validationError "Must be in YYYY-MM format."

/-- Every month has at least one day. -/
theorem one_le_daysInMonth (y m : Int) : 1 ≤ daysInMonth y m := by
  rw [daysInMonth]
  split
  · split <;> decide
  · split <;> decide

/-- Date construction with valid in-range components succeeds. -/
theorem mkDate_ok (y m : Int) (hcy : inCIntRange y = true)
    (hcm : inCIntRange m = true) (hv : validYearMonth y m = true) :
    mkDate y m 1 = Except.ok ⟨y, m, 1⟩ := by
  rw [mkDate, if_pos ⟨hcy, hcm, by decide⟩,
    if_pos ⟨hv, by decide, one_le_daysInMonth y m⟩]

/-- Date construction with C-int-sized but invalid components raises
`ValueError`. -/
theorem mkDate_valueError (y m : Int) (hcy : inCIntRange y = true)
    (hcm : inCIntRange m = true) (hv : validYearMonth y m = false) :
    mkDate y m 1 =
      Except.error (PyDateError.valueError "year, month or day is out of range") := by
  rw [mkDate, if_pos ⟨hcy, hcm, by decide⟩, if_neg]
  rintro ⟨h1, _⟩
  rw [hv] at h1
  simp at h1

/-- Date construction with a component outside the C `int` range raises
`OverflowError`. -/
theorem mkDate_overflow (y m : Int)
    (h : inCIntRange y = false ∨ inCIntRange m = false) :
    mkDate y m 1 = Except.error PyDateError.overflowError := by
  rw [mkDate, if_neg]
  rintro ⟨h1, h2, _⟩
  rcases h with h | h
  · rw [h] at h1
    simp at h1
  · rw [h] at h2
    simp at h2

/-- Counterexample to claim C8: `"9999999999-01"` splits into two
integer-parsing components, but the year 9999999999 does not fit a C `int`,
so `date(int(year), int(month), 1)` raises an `OverflowError` that the
serializer's `except ValueError` does not catch — an unhandled server error,
not the validation error the claim requires of every non-valid input. -/
theorem yearmonth_overflow_uncaught :
    yearMonthToInternal "9999999999-01" = YearMonthOutcome.uncaughtError ∧
    ∀ msg, yearMonthToInternal "9999999999-01" ≠
      YearMonthOutcome.validationError msg := by
  refine ⟨rfl, fun msg habs => ?_⟩
  rw [show yearMonthToInternal "9999999999-01" = YearMonthOutcome.uncaughtError
    from rfl] at habs
  cases habs

/-- Claim C8 as amended: year-month coercion succeeds — returning the first
day of the given month — if and only if the value splits on the dash into
exactly two components that both parse as integers fitting a C `int` and
forming a valid (year, month) pair; components parsing as integers outside
the C `int` range make the date constructor raise an `OverflowError` that
escapes the `except ValueError` handler, with no validation error; every
other shape (missing separator, extra components, non-numeric parts,
out-of-range month) raises a validation error rather than being truncated or
partially accepted. -/
theorem yearmonth_coercion_amended (s : String) :
    (∀ d : PyDate, yearMonthToInternal s = YearMonthOutcome.ok d ↔
      ∃ a b, pySplit s '-' = [a, b] ∧
        pyInt? a = some d.year ∧ pyInt? b = some d.month ∧
        inCIntRange d.year = true ∧ inCIntRange d.month = true ∧
        validYearMonth d.year d.month = true ∧ d.day = 1) ∧
    (yearMonthToInternal s = YearMonthOutcome.uncaughtError ↔
      ∃ a b y m, pySplit s '-' = [a, b] ∧ pyInt? a = some y ∧ pyInt? b = some m ∧
        (inCIntRange y = false ∨ inCIntRange m = false)) ∧
    ((∃ msg, yearMonthToInternal s = YearMonthOutcome.validationError msg) ↔
      (¬(∃ a b y m, pySplit s '-' = [a, b] ∧ pyInt? a = some y ∧ pyInt? b = some m ∧
          inCIntRange y = true ∧ inCIntRange m = true ∧
          validYearMonth y m = true) ∧
        ¬(∃ a b y m, pySplit s '-' = [a, b] ∧ pyInt? a = some y ∧ pyInt? b = some m ∧
          (inCIntRange y = false ∨ inCIntRange m = false)))) := by
  refine ⟨?_, ?_, ?_⟩
  · intro d
    rw [yearMonthToInternal.eq_def]
    rcases hs : pySplit s '-' with _ | ⟨a0, _ | ⟨b0, _ | ⟨c0, rest⟩⟩⟩
    · simp
    · simp
    · simp only [List.cons.injEq, and_true]
      cases hya : pyInt? a0 with
      | none => simp [yearMonthOfParts, hya]
      | some y0 =>
        cases hyb : pyInt? b0 with
        | none => simp [yearMonthOfParts, hya, hyb]
        | some m0 =>
          simp only [yearMonthOfParts.eq_def]
          cases hcy : inCIntRange y0 with
          | false =>
            rw [mkDate_overflow y0 m0 (Or.inl hcy)]
            constructor
            · intro habs
              cases habs
            · rintro ⟨a2, b2, ⟨rfl, rfl⟩, ha2, hb2, hcy2, _⟩
              rw [hya] at ha2
              injection ha2 with ha2
              rw [← ha2] at hcy2
              rw [hcy] at hcy2
              cases hcy2
          | true =>
            cases hcm : inCIntRange m0 with
            | false =>
              rw [mkDate_overflow y0 m0 (Or.inr hcm)]
              constructor
              · intro habs
                cases habs
              · rintro ⟨a2, b2, ⟨rfl, rfl⟩, ha2, hb2, _, hcm2, _⟩
                rw [hyb] at hb2
                injection hb2 with hb2
                rw [← hb2] at hcm2
                rw [hcm] at hcm2
                cases hcm2
            | true =>
              by_cases hv : validYearMonth y0 m0 = true
              · rw [mkDate_ok y0 m0 hcy hcm hv]
                constructor
                · intro h
                  injection h with h
                  subst h
                  exact ⟨a0, b0, ⟨rfl, rfl⟩, hya, hyb, hcy, hcm, hv, rfl⟩
                · rintro ⟨a2, b2, ⟨rfl, rfl⟩, ha2, hb2, _, _, _, hday⟩
                  rw [hya] at ha2
                  rw [hyb] at hb2
                  injection ha2 with ha2
                  injection hb2 with hb2
                  obtain ⟨dy, dm, dd⟩ := d
                  simp only at ha2 hb2 hday ⊢
                  rw [ha2, hb2, hday]
              · rw [mkDate_valueError y0 m0 hcy hcm (by simpa using hv)]
                constructor
                · intro habs
                  cases habs
                · rintro ⟨a2, b2, ⟨rfl, rfl⟩, ha2, hb2, _, _, hv2, _⟩
                  rw [hya] at ha2
                  rw [hyb] at hb2
                  injection ha2 with ha2
                  injection hb2 with hb2
                  rw [← ha2, ← hb2] at hv2
                  exact absurd hv2 hv
    · simp
  · rw [yearMonthToInternal.eq_def]
    rcases hs : pySplit s '-' with _ | ⟨a0, _ | ⟨b0, _ | ⟨c0, rest⟩⟩⟩
    · simp
    · simp
    · simp only [List.cons.injEq, and_true]
      cases hya : pyInt? a0 with
      | none => simp [yearMonthOfParts, hya]
      | some y0 =>
        cases hyb : pyInt? b0 with
        | none => simp [yearMonthOfParts, hya, hyb]
        | some m0 =>
          simp only [yearMonthOfParts.eq_def]
          cases hcy : inCIntRange y0 with
          | false =>
            rw [mkDate_overflow y0 m0 (Or.inl hcy)]
            simp [hya, hyb, hcy]
            exact ⟨a0, b0, ⟨rfl, rfl⟩, y0, hya, m0, hyb, Or.inl hcy⟩
          | true =>
            cases hcm : inCIntRange m0 with
            | false =>
              rw [mkDate_overflow y0 m0 (Or.inr hcm)]
              simp [hya, hyb, hcm]
              exact ⟨a0, b0, ⟨rfl, rfl⟩, y0, hya, m0, hyb, Or.inr hcm⟩
            | true =>
              by_cases hv : validYearMonth y0 m0 = true
              · rw [mkDate_ok y0 m0 hcy hcm hv]
                simp [hya, hyb, hcy, hcm]
              · rw [mkDate_valueError y0 m0 hcy hcm (by simpa using hv)]
                simp [hya, hyb, hcy, hcm]
    · simp
  · rw [yearMonthToInternal.eq_def]
    rcases hs : pySplit s '-' with _ | ⟨a0, _ | ⟨b0, _ | ⟨c0, rest⟩⟩⟩
    · simp
    · simp
    · simp only [List.cons.injEq, and_true]
      cases hya : pyInt? a0 with
      | none => simp [yearMonthOfParts, hya]
      | some y0 =>
        cases hyb : pyInt? b0 with
        | none => simp [yearMonthOfParts, hya, hyb]
        | some m0 =>
          simp only [yearMonthOfParts.eq_def]
          cases hcy : inCIntRange y0 with
          | false =>
            rw [mkDate_overflow y0 m0 (Or.inl hcy)]
            simp [hya, hyb, hcy]
          | true =>
            cases hcm : inCIntRange m0 with
            | false =>
              rw [mkDate_overflow y0 m0 (Or.inr hcm)]
              simp [hya, hyb, hcm]
            | true =>
              by_cases hv : validYearMonth y0 m0 = true
              · rw [mkDate_ok y0 m0 hcy hcm hv]
                simp [hya, hyb, hcy, hcm, hv]
              · rw [mkDate_valueError y0 m0 hcy hcm (by simpa using hv)]
                simp [hya, hyb, hcy, hcm, hv]
    · simp

/-! ## Optional value groups

`enforce_optional_value_groups` of `metadb/data/views.py` (lines 33-54): for
each group, the for/else loop appends one `required_fields` entry exactly
when no field of the group occurs in the request data; the whole structure is
returned if any entry was appended, and an empty mapping otherwise. -/

/-- `enforce_optional_value_groups` of `metadb/data/views.py` (lines 33-54).
Request data is represented by its keys; each unsatisfied group contributes
one entry (the group itself) under the `required_fields` key. -/
def enforce_optional_value_groups (data : List String) (groups : List (List String)) :
    List (String × List (List String)) :=
  let errors := groups.filter fun group => !(group.any fun field => data.contains field)
  if errors.isEmpty then [] else [("required_fields", errors)]

/-- Multiplicity in a filtered list. -/
theorem count_filter_eq (p : List String → Bool) (groups : List (List String))
    (g : List String) :
    (groups.filter p).count g = if p g = true then groups.count g else 0 := by
  by_cases hp : p g = true
  · rw [if_pos hp]
    exact List.count_filter hp
  · rw [if_neg hp]
    rw [List.count_eq_zero]
    intro hmem
    exact hp (List.of_mem_filter hmem)

/-- Claim C9: `enforce_optional_value_groups` returns a non-empty error
structure exactly when some group has none of its fields among the data keys;
the structure then holds exactly one `required_fields` entry per unsatisfied
group (with multiplicity), and it is the empty mapping when every group has a
member present.  The data itself is only read, never changed. -/
theorem enforce_optional_value_groups_spec (data : List String)
    (groups : List (List String)) :
    (enforce_optional_value_groups data groups = [] ↔
      ∀ g ∈ groups, ∃ f ∈ g, f ∈ data) ∧
    (∀ g, (((enforce_optional_value_groups data groups).lookup
        "required_fields").getD []).count g =
      if ∀ f ∈ g, f ∉ data then groups.count g else 0) := by
  have hpred : ∀ g : List String,
      (!(g.any fun field => data.contains field)) = true ↔ ∀ f ∈ g, f ∉ data := by
    intro g
    simp
  constructor
  · rw [enforce_optional_value_groups]
    split
    · next hempty =>
      rw [List.isEmpty_iff, List.filter_eq_nil_iff] at hempty
      simp only [true_iff]
      intro g hg
      have hng := hempty g hg
      rw [hpred g] at hng
      push_neg at hng
      exact hng
    · next hempty =>
      rw [List.isEmpty_iff] at hempty
      simp only [List.cons_ne_nil, false_iff]
      intro hall
      apply hempty
      rw [List.filter_eq_nil_iff]
      intro g hg
      rw [hpred g]
      push_neg
      obtain ⟨f, hf, hfd⟩ := hall g hg
      exact ⟨f, hf, hfd⟩
  · intro g
    rw [enforce_optional_value_groups]
    split
    · next hempty =>
      rw [List.isEmpty_iff] at hempty
      simp only [List.lookup_nil, Option.getD_none, List.count_nil]
      split
      · next hunsat =>
        have hng : g ∉ groups := by
          intro hg
          have h1 := List.filter_eq_nil_iff.1 hempty g hg
          exact h1 ((hpred g).2 hunsat)
        exact (List.count_eq_zero.2 hng).symm
      · rfl
    · next hempty =>
      have hlk : (([("required_fields",
          groups.filter fun group => !(group.any fun field => data.contains field))].lookup
            "required_fields").getD []) =
          groups.filter fun group => !(group.any fun field => data.contains field) := by
        simp [List.lookup]
      rw [hlk, count_filter_eq]
      by_cases hunsat : ∀ f ∈ g, f ∉ data
      · rw [if_pos ((hpred g).2 hunsat), if_pos hunsat]
      · rw [if_neg, if_neg hunsat]
        intro habs
        exact hunsat ((hpred g).1 habs)

/-! ## Identifier generation

`generate_cid` and `Anonymiser.generate_identifier` of
`onyx/data/models/models.py` (lines 69-86 and 173-188): `token_hex(5)` draws
five random bytes (ten lowercase hex digits, here ten hex nibbles),
uppercased and appended to the prefix; if that identifier already exists the
function retries with a fresh draw.  The stream of random draws is modelled
as a list of candidate tokens, the existing rows as a list of strings. -/

/-- Uppercase hexadecimal digit of a nibble, as `token_hex(5).upper()`
produces. -/
def hexUpperChar (n : Fin 16) : Char :=
  ['0', '1', '2', '3', '4', '5', '6', '7', '8', '9',
   'A', 'B', 'C', 'D', 'E', 'F'].getD n.1 '0'

/-- Uppercase hexadecimal digits. -/
def isUpperHexDigit (c : Char) : Bool :=
  ('0' ≤ c && c ≤ '9') || ('A' ≤ c && c ≤ 'F')

/-- The uppercased hex string of a random token, as
`"".join(token_hex(5).upper())`. -/
def tokenHexUpper (t : List (Fin 16)) : String :=
  String.mk (t.map hexUpperChar)

/-- `generate_cid` of `onyx/data/models/models.py` (lines 69-82): prefix
`C-` plus ten uppercase hex digits, regenerated (with the next random draw)
while the CID already exists; `none` when the modelled draw stream runs
out. -/
def generate_cid (existing : List String) : List (List (Fin 16)) → Option String
  | [] => none
  | t :: ts =>
    let cid := "C-" ++ tokenHexUpper t
    if existing.contains cid then generate_cid existing ts else some cid

/-- `Anonymiser.generate_identifier` of `onyx/data/models/models.py`
(lines 173-188): the model prefix, a dash and ten uppercase hex digits,
regenerated while the identifier already exists on the model. -/
def generate_identifier (pfx : String) (existing : List String) :
    List (List (Fin 16)) → Option String
  | [] => none
  | t :: ts =>
    let ident := pfx ++ "-" ++ tokenHexUpper t
    if existing.contains ident then generate_identifier pfx existing ts
    else some ident

/-- Hex digits are uppercase hexadecimal characters. -/
theorem hexUpperChar_isUpperHexDigit : ∀ n : Fin 16,
    isUpperHexDigit (hexUpperChar n) = true := by
  decide

/-- The character data of an appended string. -/
theorem string_data_append (a b : String) : (a ++ b).data = a.data ++ b.data := by
  cases a
  cases b
  rfl

/-- Claim C10: every identifier returned by `generate_cid` is a 12-character
string made of the prefix `C-` followed by ten uppercase hexadecimal digits
and differs from every CID existing at the time of the check, and
`Anonymiser.generate_identifier` gives the same format and freshness
guarantee with its model prefix in place of `C`. -/
theorem generated_identifiers_fresh_and_formatted :
    (∀ (existing : List String) (cands : List (List (Fin 16))) (cid : String),
      (∀ t ∈ cands, t.length = 10) →
      generate_cid existing cands = some cid →
      cid.length = 12 ∧ cid.data.take 2 = ['C', '-'] ∧
        (∀ c ∈ cid.data.drop 2, isUpperHexDigit c = true) ∧ cid ∉ existing) ∧
    (∀ (pfx : String) (existing : List String) (cands : List (List (Fin 16)))
        (ident : String),
      (∀ t ∈ cands, t.length = 10) →
      generate_identifier pfx existing cands = some ident →
      ident.length = pfx.length + 11 ∧
        ident.data.take (pfx.length + 1) = pfx.data ++ ['-'] ∧
        (∀ c ∈ ident.data.drop (pfx.length + 1), isUpperHexDigit c = true) ∧
        ident ∉ existing) := by
  constructor
  · intro existing cands
    induction cands with
    | nil =>
      intro cid _ habs
      rw [generate_cid] at habs
      cases habs
    | cons t ts ih =>
      intro cid hlen hgen
      rw [generate_cid] at hgen
      split at hgen
      · exact ih cid (fun u hu => hlen u (List.mem_cons_of_mem t hu)) hgen
      · next hfresh =>
        injection hgen with hgen
        have hdata : cid.data = 'C' :: '-' :: t.map hexUpperChar := by
          rw [← hgen, string_data_append]
          rfl
        have hlen10 : t.length = 10 := hlen t (List.mem_cons_self t ts)
        refine ⟨?_, ?_, ?_, ?_⟩
        · show cid.data.length = 12
          rw [hdata]
          simp [hlen10]
        · rw [hdata]
          rfl
        · rw [hdata]
          intro c hc
          simp only [List.drop_succ_cons, List.drop_zero] at hc
          obtain ⟨n, _, rfl⟩ := List.mem_map.1 hc
          exact hexUpperChar_isUpperHexDigit n
        · rw [← hgen]
          simp at hfresh
          exact hfresh
  · intro pfx existing cands
    induction cands with
    | nil =>
      intro ident _ habs
      rw [generate_identifier] at habs
      cases habs
    | cons t ts ih =>
      intro ident hlen hgen
      rw [generate_identifier] at hgen
      split at hgen
      · exact ih ident (fun u hu => hlen u (List.mem_cons_of_mem t hu)) hgen
      · next hfresh =>
        injection hgen with hgen
        have hdata : ident.data = pfx.data ++ '-' :: t.map hexUpperChar := by
          rw [← hgen, string_data_append, string_data_append, List.append_assoc]
          rfl
        have hlen10 : t.length = 10 := hlen t (List.mem_cons_self t ts)
        have hplen : pfx.length = pfx.data.length := rfl
        refine ⟨?_, ?_, ?_, ?_⟩
        · show ident.data.length = pfx.length + 11
          rw [hdata, hplen]
          simp [hlen10]
        · rw [hdata, hplen]
          rw [List.take_append_eq_append_take]
          rw [List.take_of_length_le (by omega)]
          congr 1
          have h1 : pfx.data.length + 1 - pfx.data.length = 1 := by omega
          rw [h1]
          rfl
        · rw [hdata, hplen]
          rw [List.drop_append_eq_append_drop]
          rw [List.drop_eq_nil_of_le (by omega), List.nil_append]
          have h1 : pfx.data.length + 1 - pfx.data.length = 1 := by omega
          rw [h1]
          intro c hc
          simp only [List.drop_succ_cons, List.drop_zero] at hc
          obtain ⟨n, _, rfl⟩ := List.mem_map.1 hc
          exact hexUpperChar_isUpperHexDigit n
        · rw [← hgen]
          simp at hfresh
          exact hfresh

/-- Witness for the C10 theorem: one existing CID and one existing
identifier force one retry each before a fresh draw is returned. -/
theorem generated_identifiers_fresh_and_formatted_witness :
    ("C-0123456789".length = 12 ∧ "C-0123456789".data.take 2 = ['C', '-'] ∧
      (∀ c ∈ "C-0123456789".data.drop 2, isUpperHexDigit c = true) ∧
      "C-0123456789" ∉ ["C-AAAAAAAAAA"]) ∧
    ("S-0123456789".length = "S".length + 11 ∧
      "S-0123456789".data.take ("S".length + 1) = "S".data ++ ['-'] ∧
      (∀ c ∈ "S-0123456789".data.drop ("S".length + 1), isUpperHexDigit c = true) ∧
      "S-0123456789" ∉ ["S-AAAAAAAAAA"]) := by
  constructor
  · exact generated_identifiers_fresh_and_formatted.1 ["C-AAAAAAAAAA"]
      [[10, 10, 10, 10, 10, 10, 10, 10, 10, 10], [0, 1, 2, 3, 4, 5, 6, 7, 8, 9]]
      "C-0123456789" (by decide) (by decide)
  · exact generated_identifiers_fresh_and_formatted.2 "S" ["S-AAAAAAAAAA"]
      [[10, 10, 10, 10, 10, 10, 10, 10, 10, 10], [0, 1, 2, 3, 4, 5, 6, 7, 8, 9]]
      "S-0123456789" (by decide) (by decide)

end Onyx
